import Mathlib

/-
  Verification of the virtualized document page-rendering engine in
  src/components/FileViewer.tsx (FocusFlow).

  The embedding translates:
  * the Visibility Record and current-page selection
    (`handleUpdateCurrentPage`, lines 239-255): the JS `Map<number, number>`
    is a list of (page, ratio) pairs in insertion order, and the
    `forEach` scan is a left fold;
  * the viewport geometry (`loadPdf` initial scale, `changeZoom`,
    canvas backing-store sizing in `PDFPage`);
  * the per-page render lifecycle of `PDFPage` (lines 75-130) as an
    explicit event-driven state machine: an effect run issues a render
    call, the call's `getPage` await resolves later (resizing the
    canvas, cancelling the previous render task and starting a new
    one), and each render task later completes, fails, or - if it was
    cancelled - rejects with `RenderingCancelledException`, which the
    `catch` silently discards;
  * the document-swap behaviour of the `loadPdf` effect (lines 176-204).
-/

namespace FocusFlow

/-! ## Visibility Record and current-page selection -/

/-- `Map.set` of the JS `Map<number, number>`: overwriting an existing key
keeps its insertion position, a new key is appended at the end. -/
def mapSet (m : List (Nat × ℚ)) (k : Nat) (v : ℚ) : List (Nat × ℚ) :=
  if m.any (fun q => q.1 == k) then
    m.map (fun q => if q.1 = k then (k, v) else q)
  else
    m ++ [(k, v)]

/-- One iteration of the `forEach` loop in `handleUpdateCurrentPage`:
the accumulator is `(maxRatio, mostVisiblePage)` and an entry replaces it
only when its ratio is strictly greater. -/
def scanStep (acc : ℚ × Nat) (q : Nat × ℚ) : ℚ × Nat :=
  if acc.1 < q.2 then (q.2, q.1) else acc

/-- The `forEach` scan of `handleUpdateCurrentPage`, started from
`maxRatio = 0` and `mostVisiblePage = currentPage`. -/
def scanMostVisible (cur : Nat) (vis : List (Nat × ℚ)) : Nat :=
  (vis.foldl scanStep ((0 : ℚ), cur)).2

/-- `handleUpdateCurrentPage` (FileViewer.tsx lines 239-255): record the
new ratio, then recompute the most visible page. State is
`(currentPage, visibility record)`. -/
def handleUpdateCurrentPage (st : Nat × List (Nat × ℚ)) (pg : Nat) (r : ℚ) :
    Nat × List (Nat × ℚ) :=
  (scanMostVisible st.1 (mapSet st.2 pg r), mapSet st.2 pg r)

/-- A sequence of visibility updates applied in order. -/
def applyUpdates (st : Nat × List (Nat × ℚ)) (us : List (Nat × ℚ)) :
    Nat × List (Nat × ℚ) :=
  us.foldl (fun s u => handleUpdateCurrentPage s u.1 u.2) st

/-- Running maximum of the recorded ratios, seeded with `a`
(the scan seeds it with `0`). -/
def runMax (a : ℚ) (l : List (Nat × ℚ)) : ℚ :=
  l.foldl (fun x q => max x q.2) a

/-- The maximum recorded ratio of a visibility record (at least `0`). -/
def maxRatio (l : List (Nat × ℚ)) : ℚ := runMax 0 l

/-- First page in record (insertion) order whose ratio equals `r`. -/
def firstArgmax (l : List (Nat × ℚ)) (r : ℚ) : Option Nat :=
  (l.find? (fun q => decide (q.2 = r))).map Prod.fst

/-- Modelled from the spec's words, for comparison with the code: the page
index with the maximum recorded ratio, ties broken by the lower page
index. -/
def lowestArgmax (l : List (Nat × ℚ)) : Option Nat :=
  ((l.filter (fun q => decide (q.2 = maxRatio l))).map Prod.fst).min?

theorem runMax_cons (a : ℚ) (q : Nat × ℚ) (l : List (Nat × ℚ)) :
    runMax a (q :: l) = runMax (max a q.2) l := rfl

theorem le_runMax (l : List (Nat × ℚ)) : ∀ a : ℚ, a ≤ runMax a l := by
  induction l with
  | nil => intro a; exact le_refl a
  | cons q l ih =>
    intro a
    calc a ≤ max a q.2 := le_max_left _ _
    _ ≤ runMax (max a q.2) l := ih _

theorem mem_le_runMax (l : List (Nat × ℚ)) :
    ∀ a : ℚ, ∀ q ∈ l, q.2 ≤ runMax a l := by
  induction l with
  | nil => intro a q hq; exact absurd hq (List.not_mem_nil q)
  | cons p l ih =>
    intro a q hq
    rcases List.mem_cons.mp hq with h | h
    · subst h
      calc q.2 ≤ max a q.2 := le_max_right _ _
      _ ≤ runMax (max a q.2) l := le_runMax l _
    · exact ih _ q h

theorem foldl_scanStep_fst (l : List (Nat × ℚ)) :
    ∀ (a : ℚ) (c : Nat), (l.foldl scanStep (a, c)).1 = runMax a l := by
  induction l with
  | nil => intro a c; rfl
  | cons q l ih =>
    intro a c
    by_cases h : a < q.2
    · simp only [List.foldl_cons, scanStep, if_pos h, runMax_cons,
        max_eq_right h.le]
      exact ih q.2 q.1
    · simp only [List.foldl_cons, scanStep, if_neg h, runMax_cons,
        max_eq_left (not_lt.mp h)]
      exact ih a c

theorem foldl_scanStep_snd_stable (l : List (Nat × ℚ)) :
    ∀ (a : ℚ) (c : Nat), runMax a l ≤ a → (l.foldl scanStep (a, c)).2 = c := by
  induction l with
  | nil => intro a c _; rfl
  | cons q l ih =>
    intro a c h
    rw [runMax_cons] at h
    have hmax : max a q.2 ≤ a :=
      le_trans (le_runMax l (max a q.2)) h
    have hq : ¬ a < q.2 := not_lt.mpr (le_trans (le_max_right a q.2) hmax)
    have ha : max a q.2 = a := le_antisymm hmax (le_max_left a q.2)
    simp only [List.foldl_cons, scanStep, if_neg hq]
    rw [ha] at h
    exact ih a c h

theorem foldl_scanStep_snd (l : List (Nat × ℚ)) :
    ∀ (a : ℚ) (c : Nat), a < runMax a l →
      (l.find? (fun q => decide (q.2 = runMax a l))).map Prod.fst
        = some (l.foldl scanStep (a, c)).2 := by
  induction l with
  | nil => intro a c h; exact absurd h (lt_irrefl a)
  | cons q l ih =>
    intro a c h
    rw [runMax_cons] at h ⊢
    by_cases hq : a < q.2
    · have hmaxq : max a q.2 = q.2 := max_eq_right hq.le
      rw [hmaxq] at h ⊢
      by_cases h2 : q.2 < runMax q.2 l
      · have hne : ¬ (q.2 = runMax q.2 l) := ne_of_lt h2
        rw [List.find?_cons_of_neg _ (by simpa using hne)]
        simp only [List.foldl_cons, scanStep, if_pos hq]
        exact ih q.2 q.1 h2
      · have heq : runMax q.2 l = q.2 :=
          le_antisymm (not_lt.mp h2) (le_runMax l q.2)
        rw [heq, List.find?_cons_of_pos _ (by simp)]
        simp only [List.foldl_cons, scanStep, if_pos hq]
        rw [foldl_scanStep_snd_stable l q.2 q.1 (le_of_eq heq)]
        rfl
    · have hmaxa : max a q.2 = a := max_eq_left (not_lt.mp hq)
      rw [hmaxa] at h ⊢
      have hne : ¬ (q.2 = runMax a l) :=
        ne_of_lt (lt_of_le_of_lt (not_lt.mp hq) h)
      rw [List.find?_cons_of_neg _ (by simpa using hne)]
      simp only [List.foldl_cons, scanStep, if_neg hq]
      exact ih a c h

/-- The scan returns the page whose ratio uniquely dominates all other
pages' ratios, independently of the incoming current page and of the
order of the record. -/
theorem scan_unique_max (cur : Nat) (m : List (Nat × ℚ)) (p : Nat) (r : ℚ)
    (hmem : (p, r) ∈ m) (hr : 0 < r)
    (hmax : ∀ q ∈ m, q.1 ≠ p → q.2 < r) :
    scanMostVisible cur m = p := by
  have hle : r ≤ runMax 0 m := mem_le_runMax m 0 (p, r) hmem
  have h0 : (0 : ℚ) < runMax 0 m := lt_of_lt_of_le hr hle
  have hfind := foldl_scanStep_snd m 0 cur h0
  unfold scanMostVisible
  rcases hq : m.find? (fun q => decide (q.2 = runMax 0 m)) with _ | q
  · rw [hq] at hfind; simp at hfind
  · rw [hq] at hfind
    have hfind2 : q.1 = (m.foldl scanStep ((0 : ℚ), cur)).2 :=
      Option.some.inj hfind
    have hqmem : q ∈ m := List.mem_of_find?_eq_some hq
    have hqr : q.2 = runMax 0 m := by
      have := List.find?_some hq
      exact of_decide_eq_true this
    by_cases hqp : q.1 = p
    · rw [← hfind2, hqp]
    · exact absurd (hqr ▸ hmax q hqmem hqp) (not_lt.mpr hle)

/-- Claim C1 (counterexample): the code does not break ratio ties by the
lower page index, and keeps the previous current page when the maximum
recorded ratio is 0. With updates (2, 1/2) then (1, 1/2) from the initial
state, the code selects page 2 while the claim's rule selects page 1;
with the single update (5, 0), the code keeps page 1 while the claim's
rule selects page 5. -/
theorem currentPage_tie_cx :
    (applyUpdates (1, []) [(2, 1/2), (1, 1/2)]).1 = 2 ∧
    lowestArgmax (applyUpdates (1, []) [(2, 1/2), (1, 1/2)]).2 = some 1 ∧
    (applyUpdates (1, []) [(5, 0)]).1 = 1 ∧
    lowestArgmax (applyUpdates (1, []) [(5, 0)]).2 = some 5 := by
  refine ⟨?_, ?_, ?_, ?_⟩ <;>
    norm_num [applyUpdates, handleUpdateCurrentPage, mapSet, scanMostVisible,
      scanStep, lowestArgmax, maxRatio, runMax, max_def, List.min?, List.filter]

/-- Claim C1 (amended): after any visibility update, if the maximum
recorded ratio is positive the current page is the first page in the
record's insertion order attaining that maximum (so ties are broken by
earliest first update, not by lower page index); if the maximum is 0 the
previous current page is kept. -/
theorem currentPage_first_in_order_max (cur : Nat) (m : List (Nat × ℚ))
    (pg : Nat) (r : ℚ) :
    (0 < maxRatio (mapSet m pg r) →
      some (handleUpdateCurrentPage (cur, m) pg r).1
        = firstArgmax (mapSet m pg r) (maxRatio (mapSet m pg r))) ∧
    (maxRatio (mapSet m pg r) ≤ 0 →
      (handleUpdateCurrentPage (cur, m) pg r).1 = cur) := by
  constructor
  · intro h
    exact (foldl_scanStep_snd (mapSet m pg r) 0 cur h).symm
  · intro h
    exact foldl_scanStep_snd_stable (mapSet m pg r) 0 cur h

/-- Witness for the amended C1 theorem at a concrete update. -/
theorem currentPage_first_in_order_max_witness :
    some (handleUpdateCurrentPage (1, ([] : List (Nat × ℚ))) 2 (1/2)).1
      = firstArgmax (mapSet [] 2 (1/2)) (maxRatio (mapSet [] 2 (1/2))) :=
  (currentPage_first_in_order_max 1 [] 2 (1/2)).1
    (by norm_num [maxRatio, runMax, max_def, mapSet])

/-- Claim C2 (counterexample): current-page selection is not a pure
function of the final set of (index, ratio) pairs. The update sequences
(1, 1/2), (2, 1/2) and (2, 1/2), (1, 1/2) produce records holding exactly
the same pairs, yet the first run ends on page 1 and the second on
page 2. -/
theorem currentPage_order_dependent_cx :
    (applyUpdates (1, []) [(1, 1/2), (2, 1/2)]).2 = [(1, 1/2), (2, 1/2)] ∧
    (applyUpdates (1, []) [(2, 1/2), (1, 1/2)]).2 = [(2, 1/2), (1, 1/2)] ∧
    (∀ q ∈ (applyUpdates (1, []) [(1, 1/2), (2, 1/2)]).2,
        q ∈ (applyUpdates (1, []) [(2, 1/2), (1, 1/2)]).2) ∧
    (∀ q ∈ (applyUpdates (1, []) [(2, 1/2), (1, 1/2)]).2,
        q ∈ (applyUpdates (1, []) [(1, 1/2), (2, 1/2)]).2) ∧
    (applyUpdates (1, []) [(1, 1/2), (2, 1/2)]).1 = 1 ∧
    (applyUpdates (1, []) [(2, 1/2), (1, 1/2)]).1 = 2 := by
  refine ⟨?_, ?_, ?_, ?_, ?_, ?_⟩ <;>
    norm_num [applyUpdates, handleUpdateCurrentPage, mapSet, scanMostVisible,
      scanStep]

/-- Claim C2 (amended): when the final record has a unique page whose
ratio is positive and strictly dominates every other page's ratio, the
final current page is that page, for any two nonempty update sequences
producing records with the same pairs and for any two previous
current pages. -/
theorem currentPage_deterministic_unique_max (c c2 p : Nat) (r : ℚ)
    (us us2 : List (Nat × ℚ))
    (h1 : us ≠ []) (h2 : us2 ≠ [])
    (hAB : ∀ q ∈ (applyUpdates (c, []) us).2, q ∈ (applyUpdates (c2, []) us2).2)
    (hBA : ∀ q ∈ (applyUpdates (c2, []) us2).2, q ∈ (applyUpdates (c, []) us).2)
    (hr : 0 < r) (hmem : (p, r) ∈ (applyUpdates (c, []) us).2)
    (hmax : ∀ q ∈ (applyUpdates (c, []) us).2, q.1 ≠ p → q.2 < r) :
    (applyUpdates (c, []) us).1 = p ∧ (applyUpdates (c2, []) us2).1 = p := by
  have key : ∀ (c0 : Nat) (vs : List (Nat × ℚ)), vs ≠ [] →
      (p, r) ∈ (applyUpdates (c0, []) vs).2 →
      (∀ q ∈ (applyUpdates (c0, []) vs).2, q.1 ≠ p → q.2 < r) →
      (applyUpdates (c0, []) vs).1 = p := by
    intro c0 vs hne hm hmx
    rcases (List.eq_nil_or_concat vs).resolve_left hne with ⟨L, u, rfl⟩
    have hfold : applyUpdates (c0, []) (L.concat u)
        = handleUpdateCurrentPage (applyUpdates (c0, []) L) u.1 u.2 := by
      unfold applyUpdates
      rw [List.concat_eq_append, List.foldl_append]
      rfl
    rw [hfold] at hm hmx ⊢
    exact scan_unique_max _ _ p r hm hr hmx
  refine ⟨key c us h1 hmem hmax, key c2 us2 h2 (hAB _ hmem) ?_⟩
  intro q hq hqp
  exact hmax q (hBA q hq) hqp

/-- Witness for the amended C2 theorem: two orders of the same updates,
from different previous pages, both end on the unique dominating page. -/
theorem currentPage_deterministic_unique_max_witness :
    (applyUpdates (5, []) [(1, 1/2), (2, 1/3)]).1 = 1 ∧
    (applyUpdates (9, []) [(2, 1/3), (1, 1/2)]).1 = 1 :=
  currentPage_deterministic_unique_max 5 9 1 (1/2)
    [(1, 1/2), (2, 1/3)] [(2, 1/3), (1, 1/2)]
    (by simp) (by simp)
    (by norm_num [applyUpdates, handleUpdateCurrentPage, mapSet,
      scanMostVisible, scanStep])
    (by norm_num [applyUpdates, handleUpdateCurrentPage, mapSet,
      scanMostVisible, scanStep])
    (by norm_num)
    (by norm_num [applyUpdates, handleUpdateCurrentPage, mapSet,
      scanMostVisible, scanStep])
    (by norm_num [applyUpdates, handleUpdateCurrentPage, mapSet,
      scanMostVisible, scanStep])

/-! ## Viewport geometry -/

/-- Available width computed by the `loadPdf` effect (FileViewer.tsx line
190): `window.innerWidth - (showNotes ? 384 : 0) - 48`. -/
def loadPdfAvailableWidth (innerWidth : ℚ) (showNotes : Bool) : ℚ :=
  innerWidth - (if showNotes then 384 else 0) - 48

/-- Initial scale resolved by `loadPdf` (lines 192-193):
`min(availableWidth / naturalWidth, 1.0)`. -/
def loadPdfInitialScale (innerWidth : ℚ) (showNotes : Bool)
    (naturalWidth : ℚ) : ℚ :=
  min (loadPdfAvailableWidth innerWidth showNotes / naturalWidth) 1

/-- `changeZoom` (lines 270-273): `max(0.2, min(5.0, prev + delta))`. -/
def changeZoom (prev delta : ℚ) : ℚ :=
  max (1/5) (min 5 (prev + delta))

/-- Canvas backing-store dimension (PDFPage, lines 94-96):
`Math.floor(viewport.dim * dpr)` with `viewport.dim = naturalDim * scale`. -/
def canvasPixelDim (naturalDim scale dpr : ℚ) : ℤ :=
  ⌊naturalDim * scale * dpr⌋

/-- Canvas CSS dimension (PDFPage, lines 97-98):
`Math.floor(viewport.dim)` pixels. -/
def canvasCssDim (naturalDim scale : ℚ) : ℤ :=
  ⌊naturalDim * scale⌋

/-- Claim C6 (counterexample): the code sizes the backing store with
`Math.floor`, not `ceil`, and floors the CSS size rather than keeping it
exactly `naturalSize * scale`. At naturalSize 101, scale 1/2, dpr 1 the
product is 50.5: the code allocates 50 device pixels where the claim
demands 51, and sets a 50px CSS size where the claim demands 50.5. -/
theorem canvas_dims_ceil_cx :
    canvasPixelDim 101 (1/2) 1 = 50 ∧
    ⌈(101 : ℚ) * (1/2) * 1⌉ = 51 ∧
    ((canvasCssDim 101 (1/2) : ℚ) ≠ 101 * (1/2)) := by
  have hcss : canvasCssDim 101 (1/2) = 50 := by
    rw [canvasCssDim, Int.floor_eq_iff]
    norm_num
  refine ⟨?_, ?_, ?_⟩
  · rw [canvasPixelDim, Int.floor_eq_iff]
    norm_num
  · rw [Int.ceil_eq_iff]
    norm_num
  · rw [hcss]
    norm_num

/-- Claim C6 (amended): backing-store pixel dimensions are
`floor(naturalSize * scale * dpr)` (within 1 below the exact product, and
equal to it whenever the product is a whole number), and the CSS size is
`floor(naturalSize * scale)` pixels rather than the exact product. -/
theorem canvas_dims_floor (n s dpr : ℚ) (k m : ℤ) :
    ((canvasPixelDim n s dpr : ℚ) ≤ n * s * dpr) ∧
    (n * s * dpr - 1 < (canvasPixelDim n s dpr : ℚ)) ∧
    (n * s * dpr = (k : ℚ) → canvasPixelDim n s dpr = k) ∧
    ((canvasCssDim n s : ℚ) ≤ n * s) ∧
    (n * s - 1 < (canvasCssDim n s : ℚ)) ∧
    (n * s = (m : ℚ) → canvasCssDim n s = m) := by
  refine ⟨Int.floor_le _, Int.sub_one_lt_floor _, ?_, Int.floor_le _,
    Int.sub_one_lt_floor _, ?_⟩
  · intro h; rw [canvasPixelDim, h, Int.floor_intCast]
  · intro h; rw [canvasCssDim, h, Int.floor_intCast]

/-- Witness for the amended C6 theorem: at naturalSize 100, scale 1/2,
dpr 2 the products are whole and the computed dimensions equal them. -/
theorem canvas_dims_floor_witness :
    canvasPixelDim 100 (1/2) 2 = 100 ∧ canvasCssDim 100 (1/2) = 50 :=
  ⟨(canvas_dims_floor 100 (1/2) 2 100 50).2.2.1 (by norm_num),
   (canvas_dims_floor 100 (1/2) 2 100 50).2.2.2.2.2 (by norm_num)⟩

/-! ## Per-page render lifecycle (PDFPage, lines 39-151)

The render effect (lines 75-130) runs when the page becomes visible or
when `pdfDoc` or `scale` change. Each run issues a render call that
first awaits `pdfDoc.getPage`; when that await resolves, the call
synchronously resizes the canvas (clearing it), cancels the render task
held in `renderTaskRef` (pdf.js makes a cancelled task's promise reject
with `RenderingCancelledException`), starts a new render task at the
call's captured scale and document, and stores it in the ref. When a
task's promise later settles, a successful completion paints the canvas
and sets `isRendered`; a cancellation rejection is silently swallowed by
the `catch`; any other error is logged to the console and nothing else
happens. -/

inductive TaskStatus
  | pending
  | cancelled
  | done
  | failed
deriving DecidableEq

/-- A pdf.js render task: the scale and document captured when it was
started, and its lifecycle status. -/
structure RenderTask where
  doc : Nat
  scale : ℚ
  status : TaskStatus
deriving DecidableEq

/-- One invocation of the `render` closure: it captures the effect's
`pdfDoc` and `scale`, and its `getPage` await resolves at most once. -/
structure RenderCall where
  doc : Nat
  scale : ℚ
  resolved : Bool
deriving DecidableEq

/-- State of one `PDFPage` component. `displayed` is the content of the
canvas: the (doc, scale) of the render that last painted it, `none` when
blank. `applied` is the list of task indices whose completion was
painted, in order. `consoleErrors` counts `console.error` calls. -/
structure PageState where
  doc : Nat
  scale : ℚ
  isVisible : Bool
  isRendered : Bool
  displayed : Option (Nat × ℚ)
  calls : List RenderCall
  tasks : List RenderTask
  renderTaskRef : Option Nat
  consoleErrors : Nat
  applied : List Nat
deriving DecidableEq

/-- A `PDFPage` freshly mounted with document 0 at scale 1. -/
def initPage : PageState :=
  { doc := 0, scale := 1, isVisible := false, isRendered := false,
    displayed := none, calls := [], tasks := [], renderTaskRef := none,
    consoleErrors := 0, applied := [] }

/-- `renderTaskRef.current.cancel()` (lines 100-103): cancelling affects
only a task that is still pending. -/
def cancelRefTask (tasks : List RenderTask) : Option Nat → List RenderTask
  | none => tasks
  | some r =>
    match tasks[r]? with
    | some t =>
        if t.status = TaskStatus.pending then
          tasks.set r { t with status := TaskStatus.cancelled }
        else tasks
    | none => tasks

/-- Events of one page's lifecycle. -/
inductive PEvent
  | becomeVisible
  | setScale (v : ℚ)
  | setDoc (d : Nat)
  | getPageResolve (c : Nat)
  | taskComplete (i : Nat)
  | taskFail (i : Nat)

/-- One step of the page machine; see the section comment for the
correspondence with the code. -/
def applyEvent (s : PageState) : PEvent → PageState
  | PEvent.becomeVisible =>
      if s.isVisible then s
      else { s with isVisible := true,
                    calls := s.calls ++ [⟨s.doc, s.scale, false⟩] }
  | PEvent.setScale v =>
      if v = s.scale then s
      else { s with scale := v,
                    calls := s.calls ++
                      (if s.isVisible then [⟨s.doc, v, false⟩] else []) }
  | PEvent.setDoc d =>
      if d = s.doc then s
      else { s with doc := d,
                    calls := s.calls ++
                      (if s.isVisible then [⟨d, s.scale, false⟩] else []) }
  | PEvent.getPageResolve c =>
      match s.calls[c]? with
      | some cl =>
          if cl.resolved then s
          else
            { s with calls := s.calls.set c { cl with resolved := true },
                     displayed := none,
                     tasks := cancelRefTask s.tasks s.renderTaskRef ++
                       [⟨cl.doc, cl.scale, TaskStatus.pending⟩],
                     renderTaskRef :=
                       some (cancelRefTask s.tasks s.renderTaskRef).length }
      | none => s
  | PEvent.taskComplete i =>
      match s.tasks[i]? with
      | some t =>
          if t.status = TaskStatus.pending then
            { s with tasks := s.tasks.set i { t with status := TaskStatus.done },
                     isRendered := true,
                     displayed := some (t.doc, t.scale),
                     applied := s.applied ++ [i] }
          else s
      | none => s
  | PEvent.taskFail i =>
      match s.tasks[i]? with
      | some t =>
          if t.status = TaskStatus.pending then
            { s with tasks := s.tasks.set i { t with status := TaskStatus.failed },
                     consoleErrors := s.consoleErrors + 1 }
          else s
      | none => s

/-- A sequence of page events. -/
def applyEvents (s : PageState) (es : List PEvent) : PageState :=
  es.foldl applyEvent s

/-- A page run from its mounted state. -/
def runPage (es : List PEvent) : PageState := applyEvents initPage es

/-- Status of the render task with index `i`. -/
def statusOf (s : PageState) (i : Nat) : Option TaskStatus :=
  (s.tasks[i]?).map (fun t => t.status)

/-- What the component shows for this page: the spinner flag
(`!isRendered`) and the canvas content. -/
def uiView (s : PageState) : Bool × Option (Nat × ℚ) :=
  (s.isRendered, s.displayed)

/-- Whether call `c` exists and has not resolved yet. -/
def callUnresolved (s : PageState) (c : Nat) : Bool :=
  match s.calls[c]? with
  | some cl => !cl.resolved
  | none => false

/-- The page list of the viewer: each page number has its own
independent `PDFPage` state, and an event is delivered to one page. -/
def stepPage (ps : Nat → PageState) (p : Nat) (e : PEvent) :
    Nat → PageState :=
  fun q => if q = p then applyEvent (ps p) e else ps q

theorem length_cancelRefTask (ts : List RenderTask) (ro : Option Nat) :
    (cancelRefTask ts ro).length = ts.length := by
  cases ro with
  | none => rfl
  | some r =>
      simp only [cancelRefTask]
      cases h : ts[r]? with
      | none => rfl
      | some t =>
          by_cases hp : t.status = TaskStatus.pending
          · simp [hp]
          · simp [hp]

/-- Invariant of the render effect: every pending task is the one held in
`renderTaskRef`. -/
def pendingIsRef (s : PageState) : Prop :=
  ∀ i t, s.tasks[i]? = some t → t.status = TaskStatus.pending →
    s.renderTaskRef = some i

theorem cancelRefTask_not_pending (s : PageState) (h : pendingIsRef s)
    (i : Nat) (t : RenderTask)
    (ht : (cancelRefTask s.tasks s.renderTaskRef)[i]? = some t) :
    ¬ t.status = TaskStatus.pending := by
  intro hp
  cases hr : s.renderTaskRef with
  | none =>
      rw [hr] at ht
      have h2 := h i t ht hp
      rw [hr] at h2
      exact Option.noConfusion h2
  | some r =>
      rw [hr] at ht
      cases hrt : s.tasks[r]? with
      | none =>
          have hts : cancelRefTask s.tasks (some r) = s.tasks := by
            simp [cancelRefTask, hrt]
          rw [hts] at ht
          have h2 := h i t ht hp
          rw [hr] at h2
          have hri : r = i := Option.some.inj h2
          rw [hri, ht] at hrt
          exact Option.noConfusion hrt
      | some t0 =>
          by_cases hp0 : t0.status = TaskStatus.pending
          · have hts : cancelRefTask s.tasks (some r)
                = s.tasks.set r { t0 with status := TaskStatus.cancelled } := by
              simp [cancelRefTask, hrt, hp0]
            rw [hts] at ht
            by_cases hir : i = r
            · subst hir
              have hlen : i < s.tasks.length :=
                (List.getElem?_eq_some.mp hrt).1
              rw [List.getElem?_set_eq_of_lt _ hlen] at ht
              have h3 := Option.some.inj ht
              rw [← h3] at hp
              exact TaskStatus.noConfusion hp
            · rw [List.getElem?_set_ne (Ne.symm hir)] at ht
              have h2 := h i t ht hp
              rw [hr] at h2
              exact hir (Option.some.inj h2).symm
          · have hts : cancelRefTask s.tasks (some r) = s.tasks := by
              simp [cancelRefTask, hrt, hp0]
            rw [hts] at ht
            have h2 := h i t ht hp
            rw [hr] at h2
            have hri : r = i := Option.some.inj h2
            rw [hri, ht] at hrt
            have h4 : t0 = t := (Option.some.inj hrt).symm
            rw [h4] at hp0
            exact hp0 hp

theorem pendingIsRef_applyEvent (s : PageState) (e : PEvent)
    (h : pendingIsRef s) : pendingIsRef (applyEvent s e) := by
  cases e with
  | becomeVisible =>
      intro i t hi hp
      simp only [applyEvent] at hi ⊢
      by_cases hv : s.isVisible = true
      · rw [if_pos hv] at hi ⊢; exact h i t hi hp
      · rw [if_neg hv] at hi ⊢; exact h i t hi hp
  | setScale v =>
      intro i t hi hp
      simp only [applyEvent] at hi ⊢
      by_cases hv : v = s.scale
      · rw [if_pos hv] at hi ⊢; exact h i t hi hp
      · rw [if_neg hv] at hi ⊢; exact h i t hi hp
  | setDoc d =>
      intro i t hi hp
      simp only [applyEvent] at hi ⊢
      by_cases hv : d = s.doc
      · rw [if_pos hv] at hi ⊢; exact h i t hi hp
      · rw [if_neg hv] at hi ⊢; exact h i t hi hp
  | getPageResolve c =>
      intro i t hi hp
      cases hcl : s.calls[c]? with
      | none =>
          simp only [applyEvent, hcl] at hi ⊢
          exact h i t hi hp
      | some cl =>
          by_cases hres : cl.resolved = true
          · simp only [applyEvent, hcl, if_pos hres] at hi ⊢
            exact h i t hi hp
          · simp only [applyEvent, hcl, if_neg hres] at hi ⊢
            rw [List.getElem?_append] at hi
            by_cases hlt : i < (cancelRefTask s.tasks s.renderTaskRef).length
            · rw [if_pos hlt] at hi
              exact absurd hp (cancelRefTask_not_pending s h i t hi)
            · rw [if_neg hlt] at hi
              rcases Nat.lt_or_ge
                  (i - (cancelRefTask s.tasks s.renderTaskRef).length) 1 with
                h1 | h1
              · have h0 : i - (cancelRefTask s.tasks s.renderTaskRef).length
                    = 0 := Nat.lt_one_iff.mp h1
                have hieq : i = (cancelRefTask s.tasks s.renderTaskRef).length := by
                  omega
                rw [hieq]
              · rw [List.getElem?_eq_none (by simpa using h1)] at hi
                exact Option.noConfusion hi
  | taskComplete j =>
      intro i t hi hp
      cases hjt : s.tasks[j]? with
      | none =>
          simp only [applyEvent, hjt] at hi ⊢
          exact h i t hi hp
      | some tj =>
          by_cases hpj : tj.status = TaskStatus.pending
          · simp only [applyEvent, hjt, if_pos hpj] at hi ⊢
            by_cases hij : i = j
            · subst hij
              have hlen : i < s.tasks.length :=
                (List.getElem?_eq_some.mp hjt).1
              rw [List.getElem?_set_eq_of_lt _ hlen] at hi
              have h3 := Option.some.inj hi
              rw [← h3] at hp
              exact TaskStatus.noConfusion hp
            · rw [List.getElem?_set_ne (Ne.symm hij)] at hi
              exact h i t hi hp
          · simp only [applyEvent, hjt, if_neg hpj] at hi ⊢
            exact h i t hi hp
  | taskFail j =>
      intro i t hi hp
      cases hjt : s.tasks[j]? with
      | none =>
          simp only [applyEvent, hjt] at hi ⊢
          exact h i t hi hp
      | some tj =>
          by_cases hpj : tj.status = TaskStatus.pending
          · simp only [applyEvent, hjt, if_pos hpj] at hi ⊢
            by_cases hij : i = j
            · subst hij
              have hlen : i < s.tasks.length :=
                (List.getElem?_eq_some.mp hjt).1
              rw [List.getElem?_set_eq_of_lt _ hlen] at hi
              have h3 := Option.some.inj hi
              rw [← h3] at hp
              exact TaskStatus.noConfusion hp
            · rw [List.getElem?_set_ne (Ne.symm hij)] at hi
              exact h i t hi hp
          · simp only [applyEvent, hjt, if_neg hpj] at hi ⊢
            exact h i t hi hp

theorem pendingIsRef_applyEvents (s : PageState) (es : List PEvent)
    (h : pendingIsRef s) : pendingIsRef (applyEvents s es) := by
  induction es generalizing s with
  | nil => exact h
  | cons e es ih => exact ih _ (pendingIsRef_applyEvent s e h)

theorem pendingIsRef_runPage (es : List PEvent) :
    pendingIsRef (runPage es) := by
  apply pendingIsRef_applyEvents
  intro i t hi hp
  simp [initPage] at hi

/-- Claim C4: for every page and after any sequence of events (scale
changes, visibility changes, document changes, render resolutions and
completions), at most one pending render task exists: the render effect
cancels the task in `renderTaskRef` before issuing a new one, so any two
pending task indices coincide. -/
theorem at_most_one_pending_render (es : List PEvent) (i j : Nat)
    (hi : statusOf (runPage es) i = some TaskStatus.pending)
    (hj : statusOf (runPage es) j = some TaskStatus.pending) : i = j := by
  have hinv := pendingIsRef_runPage es
  rcases hti : (runPage es).tasks[i]? with _ | ti
  · rw [statusOf, hti] at hi; exact Option.noConfusion hi
  · rcases htj : (runPage es).tasks[j]? with _ | tj
    · rw [statusOf, htj] at hj; exact Option.noConfusion hj
    · rw [statusOf, hti] at hi
      rw [statusOf, htj] at hj
      have h1 := hinv i ti hti (Option.some.inj hi)
      have h2 := hinv j tj htj (Option.some.inj hj)
      rw [h1] at h2
      exact Option.some.inj h2

/-- Witness for the C4 theorem on a concrete run with a pending task. -/
theorem at_most_one_pending_render_witness :
    statusOf (runPage [PEvent.becomeVisible, PEvent.getPageResolve 0]) 0
      = some TaskStatus.pending ∧ (0 : Nat) = 0 :=
  ⟨by decide,
   at_most_one_pending_render [PEvent.becomeVisible, PEvent.getPageResolve 0]
     0 0 (by decide) (by decide)⟩

theorem cancelRefTask_preserves (ts : List RenderTask) (ro : Option Nat)
    (i : Nat) (t : RenderTask) (ht : ts[i]? = some t)
    (hnp : ¬ t.status = TaskStatus.pending) :
    (cancelRefTask ts ro)[i]? = some t := by
  cases ro with
  | none => exact ht
  | some r =>
      cases hrt : ts[r]? with
      | none =>
          rw [show cancelRefTask ts (some r) = ts by
            simp [cancelRefTask, hrt]]
          exact ht
      | some t0 =>
          by_cases hp0 : t0.status = TaskStatus.pending
          · rw [show cancelRefTask ts (some r)
                = ts.set r { t0 with status := TaskStatus.cancelled } by
              simp [cancelRefTask, hrt, hp0]]
            by_cases hir : i = r
            · subst hir
              rw [ht] at hrt
              have h2 : t = t0 := Option.some.inj hrt
              rw [← h2] at hp0
              exact absurd hp0 hnp
            · rw [List.getElem?_set_ne (Ne.symm hir)]
              exact ht
          · rw [show cancelRefTask ts (some r) = ts by
              simp [cancelRefTask, hrt, hp0]]
            exact ht

/-- Once a task has been cancelled, no later event changes that: it never
becomes done or failed. -/
theorem cancelled_persists_event (s : PageState) (e : PEvent) (i : Nat)
    (h : statusOf s i = some TaskStatus.cancelled) :
    statusOf (applyEvent s e) i = some TaskStatus.cancelled := by
  rcases ht : s.tasks[i]? with _ | t
  · rw [statusOf, ht] at h; exact Option.noConfusion h
  · rw [statusOf, ht] at h
    have hc : t.status = TaskStatus.cancelled := Option.some.inj h
    cases e with
    | becomeVisible =>
        simp only [statusOf, applyEvent]
        by_cases hv : s.isVisible = true
        · rw [if_pos hv, ht]; simp [hc]
        · rw [if_neg hv]
          show (s.tasks[i]?).map _ = _
          rw [ht]; simp [hc]
    | setScale v =>
        simp only [statusOf, applyEvent]
        by_cases hv : v = s.scale
        · rw [if_pos hv, ht]; simp [hc]
        · rw [if_neg hv]
          show (s.tasks[i]?).map _ = _
          rw [ht]; simp [hc]
    | setDoc d =>
        simp only [statusOf, applyEvent]
        by_cases hv : d = s.doc
        · rw [if_pos hv, ht]; simp [hc]
        · rw [if_neg hv]
          show (s.tasks[i]?).map _ = _
          rw [ht]; simp [hc]
    | getPageResolve c =>
        cases hcl : s.calls[c]? with
        | none =>
            simp only [statusOf, applyEvent, hcl]
            rw [ht]; simp [hc]
        | some cl =>
            by_cases hres : cl.resolved = true
            · simp only [statusOf, applyEvent, hcl, if_pos hres]
              rw [ht]; simp [hc]
            · simp only [statusOf, applyEvent, hcl, if_neg hres]
              have hlt : i < s.tasks.length := (List.getElem?_eq_some.mp ht).1
              rw [List.getElem?_append,
                if_pos (by rw [length_cancelRefTask]; exact hlt),
                cancelRefTask_preserves s.tasks s.renderTaskRef i t ht
                  (by rw [hc]; exact TaskStatus.noConfusion)]
              simp [hc]
    | taskComplete j =>
        cases hjt : s.tasks[j]? with
        | none =>
            simp only [statusOf, applyEvent, hjt]
            rw [ht]; simp [hc]
        | some tj =>
            by_cases hpj : tj.status = TaskStatus.pending
            · have hij : j ≠ i := by
                intro hh
                subst hh
                rw [ht] at hjt
                have h2 : t = tj := Option.some.inj hjt
                rw [← h2, hc] at hpj
                exact TaskStatus.noConfusion hpj
              simp only [statusOf, applyEvent, hjt, if_pos hpj]
              rw [List.getElem?_set_ne hij, ht]
              simp [hc]
            · simp only [statusOf, applyEvent, hjt, if_neg hpj]
              rw [ht]; simp [hc]
    | taskFail j =>
        cases hjt : s.tasks[j]? with
        | none =>
            simp only [statusOf, applyEvent, hjt]
            rw [ht]; simp [hc]
        | some tj =>
            by_cases hpj : tj.status = TaskStatus.pending
            · have hij : j ≠ i := by
                intro hh
                subst hh
                rw [ht] at hjt
                have h2 : t = tj := Option.some.inj hjt
                rw [← h2, hc] at hpj
                exact TaskStatus.noConfusion hpj
              simp only [statusOf, applyEvent, hjt, if_pos hpj]
              rw [List.getElem?_set_ne hij, ht]
              simp [hc]
            · simp only [statusOf, applyEvent, hjt, if_neg hpj]
              rw [ht]; simp [hc]

theorem cancelled_persists (es : List PEvent) :
    ∀ (s : PageState) (i : Nat),
      statusOf s i = some TaskStatus.cancelled →
      statusOf (applyEvents s es) i = some TaskStatus.cancelled := by
  induction es with
  | nil => intro s i h; exact h
  | cons e es ih =>
      intro s i h
      exact ih _ _ (cancelled_persists_event s e i h)

/-- A cancelled task's completion is never painted: one step never adds a
cancelled index to `applied`. -/
theorem applied_applyEvent_of_cancelled (s : PageState) (e : PEvent)
    (i : Nat) (h : statusOf s i = some TaskStatus.cancelled) :
    (i ∈ (applyEvent s e).applied ↔ i ∈ s.applied) := by
  rcases ht : s.tasks[i]? with _ | t
  · rw [statusOf, ht] at h; exact Option.noConfusion h
  · rw [statusOf, ht] at h
    have hc : t.status = TaskStatus.cancelled := Option.some.inj h
    cases e with
    | becomeVisible =>
        simp only [applyEvent]
        by_cases hv : s.isVisible = true
        · rw [if_pos hv]
        · rw [if_neg hv]
    | setScale v =>
        simp only [applyEvent]
        by_cases hv : v = s.scale
        · rw [if_pos hv]
        · rw [if_neg hv]
    | setDoc d =>
        simp only [applyEvent]
        by_cases hv : d = s.doc
        · rw [if_pos hv]
        · rw [if_neg hv]
    | getPageResolve c =>
        cases hcl : s.calls[c]? with
        | none =>
            simp only [applyEvent, hcl]
        | some cl =>
            by_cases hres : cl.resolved = true
            · simp only [applyEvent, hcl, if_pos hres]
            · simp only [applyEvent, hcl, if_neg hres]
    | taskComplete j =>
        cases hjt : s.tasks[j]? with
        | none =>
            simp only [applyEvent, hjt]
        | some tj =>
            by_cases hpj : tj.status = TaskStatus.pending
            · have hij : ¬ i = j := by
                intro hh
                subst hh
                rw [ht] at hjt
                have h2 : t = tj := Option.some.inj hjt
                rw [← h2, hc] at hpj
                exact TaskStatus.noConfusion hpj
              simp only [applyEvent, hjt, if_pos hpj]
              show i ∈ s.applied ++ [j] ↔ i ∈ s.applied
              simp [List.mem_append, hij]
            · simp only [applyEvent, hjt, if_neg hpj]
    | taskFail j =>
        cases hjt : s.tasks[j]? with
        | none =>
            simp only [applyEvent, hjt]
        | some tj =>
            by_cases hpj : tj.status = TaskStatus.pending
            · simp only [applyEvent, hjt, if_pos hpj]
            · simp only [applyEvent, hjt, if_neg hpj]

theorem cancelled_applied_stable (es : List PEvent) :
    ∀ (s : PageState) (i : Nat),
      statusOf s i = some TaskStatus.cancelled →
      (i ∈ (applyEvents s es).applied ↔ i ∈ s.applied) := by
  induction es with
  | nil => intro s i h; exact Iff.rfl
  | cons e es ih =>
      intro s i h
      exact (ih (applyEvent s e) i (cancelled_persists_event s e i h)).trans
        (applied_applyEvent_of_cancelled s e i h)

/-- Claim C3 (counterexample): a stale completion can be painted. Scale
changes from 1 to 2 while the page's render at scale 1 is still pending
(the superseding render call has not yet resolved its `getPage`, so
nothing was cancelled); the stale task then completes and the page is
marked rendered with content at scale 1 although the requested scale is
2. -/
theorem stale_render_applied_cx :
    (runPage [PEvent.becomeVisible, PEvent.getPageResolve 0,
       PEvent.setScale 2]).scale = 2 ∧
    statusOf (runPage [PEvent.becomeVisible, PEvent.getPageResolve 0,
       PEvent.setScale 2]) 0 = some TaskStatus.pending ∧
    ((runPage [PEvent.becomeVisible, PEvent.getPageResolve 0,
       PEvent.setScale 2]).tasks[0]?).map (fun t => t.scale) = some 1 ∧
    (runPage [PEvent.becomeVisible, PEvent.getPageResolve 0,
       PEvent.setScale 2, PEvent.taskComplete 0]).isRendered = true ∧
    (runPage [PEvent.becomeVisible, PEvent.getPageResolve 0,
       PEvent.setScale 2, PEvent.taskComplete 0]).displayed = some (0, 1) ∧
    (runPage [PEvent.becomeVisible, PEvent.getPageResolve 0,
       PEvent.setScale 2, PEvent.taskComplete 0]).scale = 2 := by decide

/-- Claim C3 (amended): a stale render is discarded only once it has been
cancelled, which happens when the superseding render call's `getPage`
resolves; from that point on, its completion is never painted: the set of
painted task indices after any further events contains the cancelled task
exactly when it already did. (A stale completion arriving before that
cancellation is painted, per the counterexample.) -/
theorem cancelled_render_never_applied (es es2 : List PEvent) (i : Nat)
    (h : statusOf (runPage es) i = some TaskStatus.cancelled) :
    (i ∈ (applyEvents (runPage es) es2).applied ↔
      i ∈ (runPage es).applied) :=
  cancelled_applied_stable es2 (runPage es) i h

/-- Witness for the amended C3 theorem: after the scale change's render
call resolves, task 0 is cancelled, and its later completion paints
nothing. -/
theorem cancelled_render_never_applied_witness :
    (0 ∈ (applyEvents (runPage [PEvent.becomeVisible, PEvent.getPageResolve 0,
        PEvent.setScale 2, PEvent.getPageResolve 1])
        [PEvent.taskComplete 0]).applied ↔
      0 ∈ (runPage [PEvent.becomeVisible, PEvent.getPageResolve 0,
        PEvent.setScale 2, PEvent.getPageResolve 1]).applied) :=
  cancelled_render_never_applied
    [PEvent.becomeVisible, PEvent.getPageResolve 0,
      PEvent.setScale 2, PEvent.getPageResolve 1]
    [PEvent.taskComplete 0] 0 (by decide)

/-- Claim C5: cancelling a render is not an error. A cancelled task never
reaches the failed status under any further events, and its completion
(the promise rejection caught by the `catch`, whose name check skips
`RenderingCancelledException`) changes nothing at all: no failed state,
no console log, no user-visible change. -/
theorem cancellation_silent (es : List PEvent) (i : Nat)
    (h : statusOf (runPage es) i = some TaskStatus.cancelled) :
    (∀ es2, statusOf (applyEvents (runPage es) es2) i
        ≠ some TaskStatus.failed) ∧
    applyEvent (runPage es) (PEvent.taskComplete i) = runPage es := by
  constructor
  · intro es2 hcontra
    have h2 := cancelled_persists es2 (runPage es) i h
    rw [h2] at hcontra
    exact TaskStatus.noConfusion (Option.some.inj hcontra)
  · rcases ht : (runPage es).tasks[i]? with _ | t
    · rw [statusOf, ht] at h; exact Option.noConfusion h
    · rw [statusOf, ht] at h
      have hc : t.status = TaskStatus.cancelled := Option.some.inj h
      simp only [applyEvent, ht,
        if_neg (show ¬ t.status = TaskStatus.pending by
          rw [hc]; exact TaskStatus.noConfusion)]

/-- Witness for the C5 theorem: the task cancelled by a scale change
stays cancelled and completing it is a no-op. -/
theorem cancellation_silent_witness :
    statusOf (applyEvents (runPage [PEvent.becomeVisible,
        PEvent.getPageResolve 0, PEvent.setScale 2, PEvent.getPageResolve 1])
        [PEvent.taskComplete 0]) 0 ≠ some TaskStatus.failed ∧
    applyEvent (runPage [PEvent.becomeVisible, PEvent.getPageResolve 0,
        PEvent.setScale 2, PEvent.getPageResolve 1]) (PEvent.taskComplete 0)
      = runPage [PEvent.becomeVisible, PEvent.getPageResolve 0,
        PEvent.setScale 2, PEvent.getPageResolve 1] :=
  ⟨(cancellation_silent [PEvent.becomeVisible, PEvent.getPageResolve 0,
      PEvent.setScale 2, PEvent.getPageResolve 1] 0 (by decide)).1
      [PEvent.taskComplete 0],
   (cancellation_silent [PEvent.becomeVisible, PEvent.getPageResolve 0,
      PEvent.setScale 2, PEvent.getPageResolve 1] 0 (by decide)).2⟩

/-- Claim C9 (counterexample): a render failure is not recorded on the
slot and no inline error or retry affordance is shown: after page 1's
only render fails, the component's visible output (spinner flag and
canvas) is identical to that of a page whose render is still in flight -
the only traces are the failed task status and a console log. -/
theorem failure_not_recorded_cx :
    statusOf (runPage [PEvent.becomeVisible, PEvent.getPageResolve 0,
      PEvent.taskFail 0]) 0 = some TaskStatus.failed ∧
    uiView (runPage [PEvent.becomeVisible, PEvent.getPageResolve 0,
      PEvent.taskFail 0])
      = uiView (runPage [PEvent.becomeVisible, PEvent.getPageResolve 0]) ∧
    (runPage [PEvent.becomeVisible, PEvent.getPageResolve 0,
      PEvent.taskFail 0]).isRendered = false ∧
    (runPage [PEvent.becomeVisible, PEvent.getPageResolve 0,
      PEvent.taskFail 0]).consoleErrors = 1 := by decide

/-- Claim C9 (amended): a render failure is page-local and silent: it
leaves every other page's state untouched, leaves the failing page's
visible output (spinner and canvas) unchanged, marks the task failed and
logs to the console; no per-slot error is recorded and no retry
affordance exists. -/
theorem failure_page_local (ps : Nat → PageState) (p i q : Nat) :
    (q ≠ p → stepPage ps p (PEvent.taskFail i) q = ps q) ∧
    uiView (stepPage ps p (PEvent.taskFail i) p) = uiView (ps p) ∧
    (statusOf (ps p) i = some TaskStatus.pending →
      statusOf (stepPage ps p (PEvent.taskFail i) p) i
          = some TaskStatus.failed ∧
      (stepPage ps p (PEvent.taskFail i) p).consoleErrors
          = (ps p).consoleErrors + 1) := by
  refine ⟨?_, ?_, ?_⟩
  · intro hq
    simp [stepPage, hq]
  · simp only [stepPage, if_pos rfl]
    rcases ht : (ps p).tasks[i]? with _ | t
    · simp [applyEvent, ht]
    · by_cases hp : t.status = TaskStatus.pending
      · simp [applyEvent, ht, hp, uiView]
      · simp [applyEvent, ht, hp]
  · intro hpend
    rcases ht : (ps p).tasks[i]? with _ | t
    · rw [statusOf, ht] at hpend; exact Option.noConfusion hpend
    · rw [statusOf, ht] at hpend
      have hp : t.status = TaskStatus.pending := Option.some.inj hpend
      have hsp : stepPage ps p (PEvent.taskFail i) p
          = applyEvent (ps p) (PEvent.taskFail i) := by
        simp [stepPage]
      have hstep : applyEvent (ps p) (PEvent.taskFail i)
          = { ps p with
              tasks := (ps p).tasks.set i
                { t with status := TaskStatus.failed },
              consoleErrors := (ps p).consoleErrors + 1 } := by
        simp [applyEvent, ht, hp]
      have hlen : i < (ps p).tasks.length := (List.getElem?_eq_some.mp ht).1
      rw [hsp, hstep]
      constructor
      · show (((ps p).tasks.set i
            { t with status := TaskStatus.failed })[i]?).map
            (fun u => u.status) = some TaskStatus.failed
        rw [List.getElem?_set_eq_of_lt _ hlen]
        rfl
      · rfl

/-- Witness for the amended C9 theorem: page 1's failure leaves page 2
alone and marks page 1's task failed. -/
theorem failure_page_local_witness :
    stepPage (fun _ => runPage [PEvent.becomeVisible, PEvent.getPageResolve 0])
        1 (PEvent.taskFail 0) 2
      = runPage [PEvent.becomeVisible, PEvent.getPageResolve 0] ∧
    statusOf (stepPage
        (fun _ => runPage [PEvent.becomeVisible, PEvent.getPageResolve 0])
        1 (PEvent.taskFail 0) 1) 0 = some TaskStatus.failed :=
  ⟨(failure_page_local
      (fun _ => runPage [PEvent.becomeVisible, PEvent.getPageResolve 0])
      1 0 2).1 (by decide),
   ((failure_page_local
      (fun _ => runPage [PEvent.becomeVisible, PEvent.getPageResolve 0])
      1 0 2).2.2 (by decide)).1⟩

/-- Claim C7: the initially resolved scale is
`min(containerWidth / naturalWidth, 1.0)` where `containerWidth` is the
available width (`innerWidth` minus the notes panel and padding); with
available width 800 and natural width 1000 it is 0.8; it never exceeds
1.0, even when the width ratio exceeds 1 (e.g. available width 2000). -/
theorem fit_to_width_initial_scale (iw nw : ℚ) (sn : Bool) :
    loadPdfInitialScale iw sn nw
      = min (loadPdfAvailableWidth iw sn / nw) 1 ∧
    loadPdfInitialScale iw sn nw ≤ 1 ∧
    loadPdfAvailableWidth 848 false = 800 ∧
    loadPdfInitialScale 848 false 1000 = 4/5 ∧
    loadPdfInitialScale 2048 false 1000 = 1 := by
  refine ⟨rfl, min_le_right _ _, by norm_num [loadPdfAvailableWidth], ?_, ?_⟩
  · norm_num [loadPdfInitialScale, loadPdfAvailableWidth, min_def]
  · norm_num [loadPdfInitialScale, loadPdfAvailableWidth, min_def]

/-- Claim C10: zoom commands are clamped to [0.2, 5.0] by `changeZoom`,
but the initial fit-to-width scale has no lower clamp: whenever the
available width is below a fifth of the natural width, the initial scale
is strictly below the 0.2 floor that zoom commands respect. -/
theorem zoom_clamp_only_in_changeZoom (p d iw nw : ℚ) (sn : Bool)
    (hnw : 0 < nw) (hsmall : loadPdfAvailableWidth iw sn < nw / 5) :
    1/5 ≤ changeZoom p d ∧ changeZoom p d ≤ 5 ∧
    loadPdfInitialScale iw sn nw < 1/5 := by
  refine ⟨le_max_left _ _, max_le (by norm_num) (min_le_left _ _), ?_⟩
  have hdiv : loadPdfAvailableWidth iw sn / nw < 1/5 := by
    rw [div_lt_iff₀ hnw]
    calc loadPdfAvailableWidth iw sn < nw / 5 := hsmall
    _ = 1/5 * nw := by ring
  exact lt_of_le_of_lt (min_le_left _ _) hdiv

/-- Witness for the C10 theorem: with innerWidth 148 (available width
100) and natural width 1000 the initial scale is below 0.2, while
`changeZoom` stays clamped. -/
theorem zoom_clamp_only_in_changeZoom_witness :
    1/5 ≤ changeZoom 1 1 ∧ changeZoom 1 1 ≤ 5 ∧
    loadPdfInitialScale 148 false 1000 < 1/5 :=
  zoom_clamp_only_in_changeZoom 1 1 148 1000 false (by norm_num)
    (by norm_num [loadPdfAvailableWidth])

/-! ## Document loading and swap (FileViewer, lines 155-273) -/

/-- The `FileViewer` state relevant to document loading. `pageVisibility`
is the `pageVisibilityRef` map and `currentPage` the tracked page; both
live outside the load effect and survive a document change. -/
structure ViewerState where
  pdfDoc : Option Nat
  numPages : Nat
  scale : ℚ
  loading : Bool
  hasError : Bool
  currentPage : Nat
  pageVisibility : List (Nat × ℚ)
deriving DecidableEq

/-- The success path of the `loadPdf` effect (lines 176-204): store the
new document and page count, resolve the fit-to-width scale, clear the
error and loading flags. Nothing else is touched. -/
def loadPdf (s : ViewerState) (newDoc newNumPages : Nat)
    (naturalWidth innerWidth : ℚ) (showNotes : Bool) : ViewerState :=
  { s with pdfDoc := some newDoc,
           numPages := newNumPages,
           scale := loadPdfInitialScale innerWidth showNotes naturalWidth,
           loading := false,
           hasError := false }

/-- A viewer mid-session on document 0: page 3 is current and fully
visible. -/
def swapExampleViewer : ViewerState :=
  { pdfDoc := some 0, numPages := 5, scale := 1, loading := false,
    hasError := false, currentPage := 3, pageVisibility := [(3, 1)] }

/-- Claim C8 (counterexample): a document swap does not reset the
Visibility Record or the current page and does not cancel in-flight
renders. After loading document 1 over document 0, the visibility entry
and current page of the old session persist; on the page machine, the
render of document 0 is still pending after the swap, and when it later
completes it paints document 0's content into a page whose document is
now 1. -/
theorem document_swap_no_reset_cx :
    (loadPdf swapExampleViewer 1 4 1000 848 false).pageVisibility
      = [(3, 1)] ∧
    (loadPdf swapExampleViewer 1 4 1000 848 false).currentPage = 3 ∧
    (loadPdf swapExampleViewer 1 4 1000 848 false).pdfDoc = some 1 ∧
    statusOf (runPage [PEvent.becomeVisible, PEvent.getPageResolve 0,
      PEvent.setDoc 1]) 0 = some TaskStatus.pending ∧
    (runPage [PEvent.becomeVisible, PEvent.getPageResolve 0,
      PEvent.setDoc 1, PEvent.taskComplete 0]).displayed = some (0, 1) ∧
    (runPage [PEvent.becomeVisible, PEvent.getPageResolve 0,
      PEvent.setDoc 1, PEvent.taskComplete 0]).doc = 1 ∧
    (runPage [PEvent.becomeVisible, PEvent.getPageResolve 0,
      PEvent.setDoc 1, PEvent.taskComplete 0]).isRendered = true := by
  refine ⟨rfl, rfl, rfl, ?_, ?_, ?_, ?_⟩ <;> decide

/-- Claim C8 (amended): accepting a new document replaces the handle,
page count and scale and clears the error, but leaves the Visibility
Record and the current page untouched and cancels nothing by itself; an
in-flight render is cancelled only when the page's next render call (for
instance the one triggered by the document change) resolves its
`getPage`. -/
theorem document_swap_behavior (s : ViewerState) (d n : Nat)
    (nw iw : ℚ) (sn : Bool) (es : List PEvent) (i c : Nat)
    (hp : statusOf (runPage es) i = some TaskStatus.pending)
    (hc : callUnresolved (runPage es) c = true) :
    (loadPdf s d n nw iw sn).pageVisibility = s.pageVisibility ∧
    (loadPdf s d n nw iw sn).currentPage = s.currentPage ∧
    (loadPdf s d n nw iw sn).pdfDoc = some d ∧
    (loadPdf s d n nw iw sn).numPages = n ∧
    (loadPdf s d n nw iw sn).hasError = false ∧
    (loadPdf s d n nw iw sn).scale = loadPdfInitialScale iw sn nw ∧
    statusOf (applyEvent (runPage es) (PEvent.getPageResolve c)) i
      = some TaskStatus.cancelled := by
  refine ⟨rfl, rfl, rfl, rfl, rfl, rfl, ?_⟩
  have hinv := pendingIsRef_runPage es
  rcases ht : (runPage es).tasks[i]? with _ | t
  · rw [statusOf, ht] at hp; exact Option.noConfusion hp
  · rw [statusOf, ht] at hp
    have hpend : t.status = TaskStatus.pending := Option.some.inj hp
    have href : (runPage es).renderTaskRef = some i := hinv i t ht hpend
    rcases hcl : (runPage es).calls[c]? with _ | cl
    · simp only [callUnresolved, hcl] at hc
      exact Bool.noConfusion hc
    · simp only [callUnresolved, hcl] at hc
      have hres0 : cl.resolved = false := by simpa using hc
      have hres : ¬ cl.resolved = true := by simp [hres0]
      simp only [statusOf, applyEvent, hcl, if_neg hres]
      have hlen : i < (runPage es).tasks.length :=
        (List.getElem?_eq_some.mp ht).1
      rw [List.getElem?_append,
        if_pos (by rw [length_cancelRefTask]; exact hlen), href]
      rw [show cancelRefTask (runPage es).tasks (some i)
          = (runPage es).tasks.set i
            { t with status := TaskStatus.cancelled } by
        simp [cancelRefTask, ht, hpend]]
      rw [List.getElem?_set_eq_of_lt _ hlen]
      rfl

/-- Witness for the amended C8 theorem: swapping to document 1 keeps the
old visibility record, and the pre-swap render is cancelled when the
document change's render call resolves. -/
theorem document_swap_behavior_witness :
    (loadPdf swapExampleViewer 1 4 1000 848 false).pageVisibility
      = swapExampleViewer.pageVisibility ∧
    statusOf (applyEvent (runPage [PEvent.becomeVisible,
        PEvent.getPageResolve 0, PEvent.setDoc 1])
        (PEvent.getPageResolve 1)) 0 = some TaskStatus.cancelled :=
  ⟨(document_swap_behavior swapExampleViewer 1 4 1000 848 false
      [PEvent.becomeVisible, PEvent.getPageResolve 0, PEvent.setDoc 1]
      0 1 (by decide) (by decide)).1,
   (document_swap_behavior swapExampleViewer 1 4 1000 848 false
      [PEvent.becomeVisible, PEvent.getPageResolve 0, PEvent.setDoc 1]
      0 1 (by decide) (by decide)).2.2.2.2.2.2⟩

end FocusFlow
